import Mathlib

/-!
Shallow embedding of `value_ring.go` from antongulenko/go-bitflow-collector
(package `collector`): the rate-computation ring buffer (`ValueRing`), its
polymorphic value model (`LogbackValue`, `StoredValue`), and the operations
`AddToHead`, `FlushHead`, `Add`, `AddValue`, `Increment`, `GetDiff`,
`GetHead`, together with the internal helpers `getDiffInterval`, `getHead`,
`get` and `flush`.

Modelling conventions:
- `time.Time` and `time.Duration` are both nanosecond counts, embedded as
  `Int` (`GoTime`, `GoDuration`).  `Duration.Seconds()` is the exact
  rational `d / 1e9`.
- `bitflow.Value` is the Go `float64` type.  The claims only exercise small exact
  values, so finite floats are embedded as exact rationals, while the
  IEEE-754 non-finite results that division in Go can produce are kept
  explicit in the `GoFloat` type (`posInf`, `negInf`, `nan`); division by
  (positive) zero follows the IEEE rules.  Rounding of in-range finite
  arithmetic is not modelled.
- The `LogbackValue` interface is embedded as a closed inductive with the
  two scalar variants implemented in `value_ring.go` (`StoredValue` and
  `*StoredValue`) plus a `custom` constructor standing in for the
  source-defined cumulative implementations, which the spec treats as
  opaque external collaborators; no theorem below evaluates a `custom`
  receiver.
- The `sync.Mutex` field only serializes access and carries no data; it is
  dropped.  `time.Now()` inside `FlushHead` is passed in as an explicit
  `now` argument.  The `log.Errorf` calls only log (they never abort), so
  they are invisible to the state model.
- Go slice indexing `values[i]` is embedded as `List.getD` with the zero
  `TimedValue` as default; all indices used by the embedded operations stay
  in bounds for rings satisfying the head invariant, so the default is
  never read where Go would panic.
-/

namespace Collector

/-- `time.Time`, as nanoseconds since the epoch. -/
abbrev GoTime := Int

/-- `time.Duration`: a nanosecond count (`int64` in Go). -/
abbrev GoDuration := Int

/-- `time.Duration.Seconds()`: the duration as (exact) seconds. -/
def durationSeconds (d : GoDuration) : ℚ := (d : ℚ) / 1000000000

/-- A Go `float64` result: an exact finite rational, or one of the IEEE-754
non-finite values that division can produce. -/
inductive GoFloat where
  | finite (q : ℚ)
  | posInf
  | negInf
  | nan
deriving DecidableEq, Repr

/-- The Go `<` on `float64`, compared against zero (`val < 0`): `NaN < 0` is
false, `-Inf < 0` is true. -/
def GoFloat.isNeg : GoFloat → Bool
  | .finite q => q < 0
  | .posInf => false
  | .negInf => true
  | .nan => false

/-- Whether a `GoFloat` is a finite value (not `Inf`/`-Inf`/`NaN`). -/
def GoFloat.isFinite : GoFloat → Bool
  | .finite _ => true
  | _ => false

/-- Go `float64` division of two finite operands, with the IEEE-754 rules
for a zero divisor (the only zero produced by `Duration.Seconds()` is
`+0`): `x/+0` is `+Inf` for `x > 0`, `-Inf` for `x < 0`, `NaN` for
`x = 0`. -/
def floatDiv (a b : ℚ) : GoFloat :=
  if b = 0 then
    if a = 0 then .nan else if 0 < a then .posInf else .negInf
  else .finite (a / b)

/-- `type StoredValue bitflow.Value`: the plain scalar variant. -/
abbrev StoredValue := ℚ

/-- The `LogbackValue` interface: the two scalar implementations from
`value_ring.go` (`StoredValue` by value and by pointer), plus `custom`
standing in for any source-defined cumulative implementation (opaque to
the ring per the spec). -/
inductive LogbackValue where
  | stored (v : StoredValue)
  | storedPtr (v : StoredValue)
  | custom (id : Nat)
deriving DecidableEq, Repr

/-- `StoredValue.DiffValue`: `(val - previous) / interval.Seconds()` for a
scalar (or pointer-to-scalar) previous value; any other variant logs an
error and returns `0`.  Note: the division is NOT guarded against
`interval == 0`. -/
def StoredValue.DiffValue (val : StoredValue) (logback : LogbackValue)
    (interval : GoDuration) : GoFloat :=
  match logback with
  | .stored previous => floatDiv (val - previous) (durationSeconds interval)
  | .storedPtr previous => floatDiv (val - previous) (durationSeconds interval)
  | .custom _ => .finite 0

/-- `StoredValue.AddValue`: scalar addition; any other variant logs an
error and returns `StoredValue(0)`. -/
def StoredValue.AddValue (val : StoredValue) (incoming : LogbackValue) :
    LogbackValue :=
  match incoming with
  | .stored other => .stored (val + other)
  | .storedPtr other => .stored (val + other)
  | .custom _ => .stored 0

/-- Dynamic dispatch of `LogbackValue.DiffValue`.  The `custom` receiver
stands in for source-defined implementations outside `value_ring.go`
(opaque per the spec); no theorem below evaluates it. -/
def LogbackValue.DiffValue : LogbackValue → LogbackValue → GoDuration → GoFloat
  | .stored v, previous, interval => StoredValue.DiffValue v previous interval
  | .storedPtr v, previous, interval => StoredValue.DiffValue v previous interval
  | .custom _, _, _ => .finite 0

/-- Dynamic dispatch of `LogbackValue.AddValue`; `custom` as for
`LogbackValue.DiffValue`. -/
def LogbackValue.AddValue : LogbackValue → LogbackValue → LogbackValue
  | .stored v, incoming => StoredValue.AddValue v incoming
  | .storedPtr v, incoming => StoredValue.AddValue v incoming
  | .custom c, _ => .custom c

/-- `TimedValue`: a timestamped slot; `val = none` is the nil interface
value (empty slot). -/
structure TimedValue where
  time : GoTime
  val : Option LogbackValue
deriving DecidableEq, Repr

/-- The zero `TimedValue` (Go zero value: zero time, nil value). -/
def TimedValue.empty : TimedValue := ⟨0, none⟩

/-- `ValueRing`: the ring state.  `interval` is the configured look-back
window, `values` the fixed-capacity slot array, `head` the Go `int` index
one past the most recently written slot, `aggregator` the pending
accumulator (nil interface as `none`), `previousDiff` the last
successfully computed diff. -/
structure ValueRing where
  interval : GoDuration
  values : List TimedValue
  head : Int
  aggregator : Option LogbackValue
  previousDiff : GoFloat
deriving DecidableEq, Repr

/-- `ValueRingFactory`: capacity (`Length`, a `make` size, hence a `Nat`)
and window (`Interval`). -/
structure ValueRingFactory where
  Length : Nat
  Interval : GoDuration
deriving DecidableEq, Repr

/-- `ValueRingFactory.NewValueRing`: a zero-initialized ring of capacity
`Length`. -/
def ValueRingFactory.NewValueRing (factory : ValueRingFactory) : ValueRing :=
  { interval := factory.Interval
    values := List.replicate factory.Length TimedValue.empty
    head := 0
    aggregator := none
    previousDiff := .finite 0 }

/-- The descending index list `[hi, hi-1, ..., lo]` (empty when
`hi < lo`): the index sequence of a Go loop
`for i := hi; i >= lo; i--`. -/
def intRangeDown (hi lo : Int) : List Int :=
  (List.range (hi + 1 - lo).toNat).map (fun (k : Nat) => hi - (k : Int))

/-- The `walkRing` loop of `ValueRing.get`: visit the indices in order,
stopping (and returning the accumulated `result`) at the first nil slot,
or returning the slot itself once its timestamp is before the bound. -/
def walkRing (values : List TimedValue) (before : GoTime) :
    List Int → TimedValue → TimedValue
  | [], result => result
  | i :: rest, result =>
    let tv := values.getD i.toNat TimedValue.empty
    match tv.val with
    | none => result
    | some _ => if tv.time < before then tv else walkRing values before rest tv

/-- The clearing loop of `ValueRing.flush`: walk the indices, returning
early (flag `true`) at the first nil slot, otherwise setting the value of each visited
slot to nil. -/
def clearSlots (values : List TimedValue) :
    List Int → List TimedValue × Bool
  | [] => (values, false)
  | i :: rest =>
    let tv := values.getD i.toNat TimedValue.empty
    match tv.val with
    | none => (values, true)
    | some _ => clearSlots (values.set i.toNat { tv with val := none }) rest

/-- `ValueRing.AddToHead`: merge into the pending aggregator. -/
def ValueRing.AddToHead (ring : ValueRing) (val : LogbackValue) : ValueRing :=
  match ring.aggregator with
  | none => { ring with aggregator := some val }
  | some agg => { ring with aggregator := some (agg.AddValue val) }

/-- `ValueRing.AddValueToHead`: scalar wrapper for `AddToHead`. -/
def ValueRing.AddValueToHead (ring : ValueRing) (val : StoredValue) : ValueRing :=
  ring.AddToHead (.stored val)

/-- `ValueRing.FlushHead`: commit the aggregator at time `now` into
`values[head]`, advance `head` (wrapping at `capacity - 1`), clear the
aggregator.  `time.Now()` is the explicit `now` argument. -/
def ValueRing.FlushHead (ring : ValueRing) (now : GoTime) : ValueRing :=
  { ring with
    values := ring.values.set ring.head.toNat ⟨now, ring.aggregator⟩
    head := if ring.head ≥ (ring.values.length : Int) - 1 then 0 else ring.head + 1
    aggregator := none }

/-- `ValueRing.Add`: `AddToHead` followed by `FlushHead`. -/
def ValueRing.Add (ring : ValueRing) (now : GoTime) (val : LogbackValue) : ValueRing :=
  (ring.AddToHead val).FlushHead now

/-- `ValueRing.AddValue`: scalar wrapper for `Add`. -/
def ValueRing.AddValue (ring : ValueRing) (now : GoTime) (val : StoredValue) : ValueRing :=
  ring.Add now (.stored val)

/-- Internal `ValueRing.getHead`: the slot one before `head` (wrapping to
the last slot when `head <= 0`). -/
def ValueRing.getHead (ring : ValueRing) : TimedValue :=
  let headIndex : Int :=
    if ring.head ≤ 0 then (ring.values.length : Int) - 1 else ring.head - 1
  ring.values.getD headIndex.toNat TimedValue.empty

/-- `ValueRing.Increment`: fold `val` onto the current head value (when
present) and commit via `Add`. -/
def ValueRing.Increment (ring : ValueRing) (now : GoTime) (val : LogbackValue) : ValueRing :=
  match ring.getHead.val with
  | none => ring.Add now val
  | some cur => ring.Add now (cur.AddValue val)

/-- Internal `ValueRing.get`: backward search for the first sample whose
timestamp is before `before`; walks `head-1 .. 0` then
`capacity-1 .. head`, stopping at the first nil slot.  Returns the zero
`TimedValue` if the very first visited slot is nil. -/
def ValueRing.get (ring : ValueRing) (before : GoTime) : TimedValue :=
  walkRing ring.values before
    (intRangeDown (ring.head - 1) 0 ++
      intRangeDown ((ring.values.length : Int) - 1) ring.head)
    TimedValue.empty

/-- Internal `ValueRing.getDiffInterval`: diff between the head sample and
the sample found at or before `head.time - before`; returns `0` for an
empty ring, a missing previous sample, or a zero elapsed interval. -/
def ValueRing.getDiffInterval (ring : ValueRing) (before : GoDuration) : GoFloat :=
  let head := ring.getHead
  match head.val with
  | none => .finite 0
  | some headVal =>
    let beforeTime := head.time - before
    let previous := ring.get beforeTime
    match previous.val with
    | none => .finite 0
    | some prevVal =>
      let interval := head.time - previous.time
      if interval = 0 then .finite 0
      else headVal.DiffValue prevVal interval

/-- Internal `ValueRing.flush`: clear slots from `start` (negative `start`
wraps by adding the capacity) down to `0`, then — only if no nil slot was
hit — from `capacity - 1` down to `head`, stopping at the first nil
slot. -/
def ValueRing.flush (ring : ValueRing) (start : Int) : ValueRing :=
  let start := if start < 0 then start + (ring.values.length : Int) else start
  let cleared := clearSlots ring.values (intRangeDown start 0)
  match cleared with
  | (vs, true) => { ring with values := vs }
  | (vs, false) =>
    { ring with
      values :=
        (clearSlots vs
          (intRangeDown ((ring.values.length : Int) - 1) ring.head)).1 }

/-- `ValueRing.GetDiff`: the windowed diff; a negative result (counter
overflow) returns the previous successfully computed diff and flushes all
but the latest sample; a non-negative result is cached as
`previousDiff`.  Returns the value together with the updated ring
state. -/
def ValueRing.GetDiff (ring : ValueRing) : GoFloat × ValueRing :=
  let val := ring.getDiffInterval ring.interval
  if val.isNeg then (ring.previousDiff, ring.flush (ring.head - 2))
  else (val, { ring with previousDiff := val })

/-- `ValueRing.GetHead`: the most recently committed value, or `none` for
a never-written ring.  Read-only (the Go method only takes the lock). -/
def ValueRing.GetHead (ring : ValueRing) : Option LogbackValue :=
  ring.getHead.val

/-- Statement vocabulary: the slot is nil or holds one of the scalar
variants implemented in `value_ring.go` (no source-defined `custom`
value). -/
def TimedValue.scalarSlot (tv : TimedValue) : Bool :=
  match tv.val with
  | some (.custom _) => false
  | _ => true

/-!
Concrete scenario states.  Every state below is built exclusively through
the embedded ring operations starting from `NewValueRing`, so each one is
reachable.  Timestamps are nanoseconds (`1000000000 = 1s`).
-/

/-- Capacity-3 factory with a 2-second window. -/
def demoFactory : ValueRingFactory := ⟨3, 2000000000⟩

/-- Scalars `10, 20` committed at `t = 0s, 1s` into a capacity-3 ring. -/
def demoRing2 : ValueRing :=
  ((demoFactory.NewValueRing).AddValue 0 10).AddValue 1000000000 20

/-- `GetDiff` after the second commit (value and updated state). -/
def demoDiff2 : GoFloat × ValueRing := demoRing2.GetDiff

/-- The wrapped-around scalar `5` committed at `t = 2s`: the ring is now
full (`head` has wrapped to `0`) with samples `10, 20, 5`. -/
def demoRing3 : ValueRing := demoDiff2.2.AddValue 2000000000 5

/-- `GetDiff` after the third commit: the overflow-recovery call. -/
def demoDiff3 : GoFloat × ValueRing := demoRing3.GetDiff

/-- Capacity-3 ring with a 10-second window holding `10, 20` committed at
`t = 0s, 1s`: two commits (fewer than the capacity), and no sample old
enough to span the window. -/
def shortHistoryRing : ValueRing :=
  (((⟨3, 10000000000⟩ : ValueRingFactory).NewValueRing).AddValue 0 10).AddValue
    1000000000 20

/-- Capacity-3 ring, 2-second window, scalars `(t=0, 100)`, `(t=1s, 150)`,
`(t=2s, 200)`. -/
def rateRing : ValueRing :=
  ((((⟨3, 2000000000⟩ : ValueRingFactory).NewValueRing).AddValue 0 100).AddValue
      1000000000 150).AddValue 2000000000 200

/-- Capacity-4 ring, 10-second window: commits `(0s, 10)`, `(1s, 20)`, a
`GetDiff` (which caches `10` as the last good diff), then the
wrapped-around `(2s, 5)`.  The next `GetDiff` computes a negative diff,
and the capacity is large enough that the overflow flush keeps the newest
sample. -/
def overflowRing : ValueRing :=
  (((((⟨4, 10000000000⟩ : ValueRingFactory).NewValueRing).AddValue 0 10).AddValue
        1000000000 20).GetDiff).2.AddValue 2000000000 5

/-- First query of the `overflowRing` history: `GetDiff` right after the
two commits `(0s, 10)`, `(1s, 20)` — the genuinely computed rate `10`. -/
def edgeDiff1 : GoFloat × ValueRing :=
  ((((⟨4, 10000000000⟩ : ValueRingFactory).NewValueRing).AddValue 0 10).AddValue
      1000000000 20).GetDiff

/-- Overflow query: `GetDiff` after the wrapped-around `(2s, 5)` commit
(falls back to `10` and flushes all but the newest sample). -/
def edgeDiff2 : GoFloat × ValueRing :=
  (edgeDiff1.2.AddValue 2000000000 5).GetDiff

/-- Edge-case query: `GetDiff` on the flushed ring (single sample left, so
the zero-elapsed-time edge case yields `0` — and overwrites the cached
last good diff). -/
def edgeDiff3 : GoFloat × ValueRing := edgeDiff2.2.GetDiff

/-- Second overflow: commit `(3s, 1)` and query; the computed diff is
negative again, so `GetDiff` falls back to the cached diff — which the
edge-case query clobbered to `0`. -/
def edgeDiff4 : GoFloat × ValueRing :=
  (edgeDiff3.2.AddValue 3000000000 1).GetDiff

/-!
Helper lemmas about the loop embeddings.
-/

theorem intRangeDown_eq_nil {hi lo : Int} (h : hi < lo) :
    intRangeDown hi lo = [] := by
  have : (hi + 1 - lo).toNat = 0 := by omega
  simp [intRangeDown, this]

theorem intRangeDown_cons {hi lo : Int} (h : lo ≤ hi) :
    intRangeDown hi lo = hi :: intRangeDown (hi - 1) lo := by
  have h1 : (hi + 1 - lo).toNat = (hi - 1 + 1 - lo).toNat + 1 := by omega
  have h2 : ((fun (k : Nat) => hi - (k : Int)) ∘ Nat.succ) =
      fun (k : Nat) => hi - 1 - (k : Int) := by
    funext k
    simp only [Function.comp_apply, Nat.succ_eq_add_one]
    push_cast
    ring
  rw [intRangeDown, h1, List.range_succ_eq_map, List.map_cons, List.map_map, h2,
    intRangeDown]
  norm_num

theorem getD_replicate {α : Type} (n i : Nat) (d : α) :
    (List.replicate n d).getD i d = d := by
  induction n generalizing i with
  | zero => simp [List.getD]
  | succ m ih =>
    cases i with
    | zero => simp [List.replicate_succ]
    | succ j =>
      rw [List.replicate_succ, List.getD_cons_succ]
      exact ih j

theorem getD_mem_or_default {α : Type} (l : List α) (i : Nat) (d : α) :
    l.getD i d ∈ l ∨ l.getD i d = d := by
  induction l generalizing i with
  | nil => right; simp [List.getD]
  | cons a t ih =>
    cases i with
    | zero => left; simp
    | succ j =>
      rcases ih j with h | h
      · left; right; simpa using h
      · right; simpa using h

theorem clearSlots_length (idxs : List Int) (l : List TimedValue) :
    (clearSlots l idxs).1.length = l.length := by
  induction idxs generalizing l with
  | nil => rfl
  | cons i rest ih =>
    rw [clearSlots]
    split
    · rfl
    · rw [ih]
      simp

theorem flush_head (r : ValueRing) (s : Int) : (r.flush s).head = r.head := by
  unfold ValueRing.flush
  split <;> dsimp only <;> split <;> rfl

theorem flush_values_length (r : ValueRing) (s : Int) :
    (r.flush s).values.length = r.values.length := by
  unfold ValueRing.flush
  split <;> dsimp only <;> split <;> rename_i vs heq
  · have h1 := clearSlots_length
      (intRangeDown (s + (r.values.length : Int)) 0) r.values
    rw [heq] at h1
    exact h1
  · have h1 := clearSlots_length
      (intRangeDown (s + (r.values.length : Int)) 0) r.values
    rw [heq] at h1
    have h2 := clearSlots_length
      (intRangeDown ((r.values.length : Int) - 1) r.head) vs
    simp only
    rw [h2]
    exact h1
  · have h1 := clearSlots_length (intRangeDown s 0) r.values
    rw [heq] at h1
    exact h1
  · have h1 := clearSlots_length (intRangeDown s 0) r.values
    rw [heq] at h1
    have h2 := clearSlots_length
      (intRangeDown ((r.values.length : Int) - 1) r.head) vs
    simp only
    rw [h2]
    exact h1

/-!
Claim theorems.
-/

/-- Claim C4 (confirmed) — Rate correctness: for a ring with a 2-second
window holding the scalar samples `(t=0, 100)`, `(t=1s, 150)`,
`(t=2s, 200)` committed in that order, `GetDiff` queried at `t=2s`
returns `(200 - 100) / 2 = 50`. -/
theorem rate_correctness_window_2s :
    rateRing.GetDiff.1 = .finite 50 := by with_unfolding_all decide

/-- Claim C9 (confirmed) — Mismatched-variant neutrality: for every scalar
value `v` and every `LogbackValue` of a different (source-defined)
variant `x`, `DiffValue` returns `0` and `AddValue` returns the scalar
additive identity `StoredValue(0)`.  Both embedded operations are total
Lean functions, mirroring that the Go default branches only log an error
and return — they never raise a fatal error. -/
theorem mismatched_variant_neutral (v : StoredValue) (x : Nat)
    (interval : GoDuration) :
    StoredValue.DiffValue v (.custom x) interval = .finite 0 ∧
    StoredValue.AddValue v (.custom x) = .stored 0 :=
  ⟨rfl, rfl⟩

/-- Claim C6 (counterexample) — The claim says `difference(v, p, interval)`
itself returns `0` when `interval == 0`.  It does not: `DiffValue` has no
zero-interval guard (the guard lives in `getDiffInterval`), so calling it
directly with `interval = 0` performs the division by `+0` and yields
`+Inf` for `5 - 3 > 0`, not `0`. -/
theorem diffValue_zero_interval_not_zero :
    StoredValue.DiffValue 5 (.stored 3) 0 = .posInf ∧
    StoredValue.DiffValue 5 (.stored 3) 0 ≠ .finite 0 := by with_unfolding_all decide

/-- Claim C7 (confirmed) — Wraparound retention: committing five scalar
values sequentially into a capacity-3 ring leaves storage holding exactly
the 3rd, 4th and 5th values (in ring order: slot 0 = 4th, slot 1 = 5th,
slot 2 = 3rd), and `GetHead` returns the 5th. -/
theorem wraparound_retention_capacity3 (w : GoDuration)
    (v1 v2 v3 v4 v5 : StoredValue) (t1 t2 t3 t4 t5 : GoTime) :
    let ring := ((((((⟨3, w⟩ : ValueRingFactory).NewValueRing).AddValue t1
        v1).AddValue t2 v2).AddValue t3 v3).AddValue t4 v4).AddValue t5 v5
    ring.values = [⟨t4, some (.stored v4)⟩, ⟨t5, some (.stored v5)⟩,
      ⟨t3, some (.stored v3)⟩] ∧
    ring.GetHead = some (.stored v5) :=
  ⟨rfl, rfl⟩

/-- Claim C1 (code bug, evaluated at the failing input) — Overflow recovery
for the committed sequence `[10, 20, 5]` in a capacity-3 ring: the
`GetDiff` after the third commit does return the same value as the one
after the second commit (the last-good fallback works), but the
subsequent `GetHead` returns `none` — the overflow flush cleared every
slot including the newest sample `5`, because with the wrapped head
(`head = 0`) its second loop runs from `capacity-1` down to `head` and
hits the newest slot. -/
theorem overflow_recovery_clears_newest_capacity3 :
    demoDiff3.1 = demoDiff2.1 ∧
    demoDiff3.2.GetHead = none ∧
    demoDiff3.2.values.all (fun tv => tv.val.isNone) = true := by with_unfolding_all decide

/-- Claim C3 (code bug, evaluated at the failing input) — Flush
postcondition: in the reachable capacity-3 state holding `(0s, 10)`,
`(1s, 20)`, `(2s, 5)` with `head = 0`, the newest committed sample is
`5`, yet `flush(head - 2)` clears every slot — the newest sample is not
left intact, contradicting the comment `// Only keep the latest
sample` in the code itself.  (For `head ≥ 2` the flush does keep the newest slot;
the wrapped positions `head = 0` and `head = 1` are the broken ones.) -/
theorem flush_at_wrapped_head_clears_newest :
    demoRing3.head = 0 ∧
    demoRing3.getHead.val = some (.stored 5) ∧
    ((demoRing3.flush (demoRing3.head - 2)).values.all
      (fun tv => tv.val.isNone)) = true := by with_unfolding_all decide

/-- Claim C2 (counterexample) — A capacity-3 ring with only two committed
samples (fewer than its capacity) and a 10-second window that no sample
is old enough to span (`head.time - window = -9s` precedes every
sample): `GetDiff` returns `10`, not `0` — the backward search falls
back to the oldest contiguous sample instead of reporting "no
history". -/
theorem getDiff_nonzero_below_window_span :
    shortHistoryRing.values.length = 3 ∧
    shortHistoryRing.values.countP (fun tv => tv.val.isSome) = 2 ∧
    (shortHistoryRing.values.all fun tv =>
      !(tv.val.isSome &&
        decide (tv.time < shortHistoryRing.getHead.time -
          shortHistoryRing.interval))) = true ∧
    shortHistoryRing.GetDiff.1 = .finite 10 ∧
    shortHistoryRing.GetDiff.1 ≠ .finite 0 := by with_unfolding_all decide

/-- Claim C5 (counterexample) — In the reachable capacity-4 state
`overflowRing` (last good diff `10`, newest sample `5` after a counter
wraparound) the internally computed diff is negative; the first
`GetDiff` returns the fallback `10` but flushes the history, so the
immediately repeated `GetDiff` (no intervening `FlushHead`) returns `0`:
`GetDiff` is not idempotent in the overflow case. -/
theorem getDiff_not_idempotent_after_overflow :
    (overflowRing.getDiffInterval overflowRing.interval).isNeg = true ∧
    overflowRing.GetDiff.1 = .finite 10 ∧
    overflowRing.GetDiff.2.GetDiff.1 = .finite 0 ∧
    overflowRing.GetDiff.2.GetDiff.1 ≠ overflowRing.GetDiff.1 := by with_unfolding_all decide

theorem getDiffInterval_set_previousDiff (r : ValueRing) (d : GoFloat)
    (w : GoDuration) :
    ValueRing.getDiffInterval { r with previousDiff := d } w =
      r.getDiffInterval w := rfl

/-- Claim C8 (confirmed) — Head index invariant: for a ring whose head is in
range (`0 ≤ head < capacity`, as established at creation where
`head = 0`), `FlushHead` advances `head` to `(head + 1) mod capacity` and
keeps it in range, while `GetDiff` (including its internal overflow
`flush`), `AddToHead` and `flush` leave `head` — and the capacity —
untouched.  `GetHead` is embedded as a pure function (the Go method only
takes the lock), so it cannot modify the ring at all. -/
theorem head_index_invariant (r : ValueRing) (now : GoTime)
    (v : LogbackValue) (s : Int) (hlen : 0 < r.values.length)
    (h0 : 0 ≤ r.head) (h1 : r.head < (r.values.length : Int)) :
    ((r.FlushHead now).head = (r.head + 1) % (r.values.length : Int) ∧
      0 ≤ (r.FlushHead now).head ∧
      (r.FlushHead now).head < ((r.FlushHead now).values.length : Int)) ∧
    (r.GetDiff.2.head = r.head ∧
      r.GetDiff.2.values.length = r.values.length) ∧
    (r.AddToHead v).head = r.head ∧
    (r.flush s).head = r.head := by
  have hsetlen : (r.FlushHead now).values.length = r.values.length := by
    simp [ValueRing.FlushHead]
  have hfh : (r.FlushHead now).head =
      if r.head ≥ (r.values.length : Int) - 1 then 0 else r.head + 1 := rfl
  have hgd2 : r.GetDiff.2.head = r.head ∧
      r.GetDiff.2.values.length = r.values.length := by
    unfold ValueRing.GetDiff
    dsimp only
    split
    · exact ⟨flush_head r (r.head - 2), flush_values_length r (r.head - 2)⟩
    · exact ⟨rfl, rfl⟩
  refine ⟨⟨?_, ?_, ?_⟩, hgd2, ?_, flush_head r s⟩
  · rw [hfh]
    by_cases h : r.head ≥ (r.values.length : Int) - 1
    · rw [if_pos h]
      have he : r.head + 1 = (r.values.length : Int) := by omega
      rw [he, Int.emod_self]
    · rw [if_neg h]
      rw [Int.emod_eq_of_lt (by omega) (by omega)]
  · rw [hfh]
    split <;> omega
  · rw [hsetlen, hfh]
    split <;> omega
  · unfold ValueRing.AddToHead
    split <;> rfl

/-- Witness for `head_index_invariant` at the reachable capacity-3 state
`demoRing2` (where `head = 2`). -/
theorem head_index_invariant_witness :
    0 < demoRing2.values.length ∧ 0 ≤ demoRing2.head ∧
    demoRing2.head < (demoRing2.values.length : Int) ∧
    (((demoRing2.FlushHead 0).head =
        (demoRing2.head + 1) % (demoRing2.values.length : Int) ∧
      0 ≤ (demoRing2.FlushHead 0).head ∧
      (demoRing2.FlushHead 0).head <
        ((demoRing2.FlushHead 0).values.length : Int)) ∧
    (demoRing2.GetDiff.2.head = demoRing2.head ∧
      demoRing2.GetDiff.2.values.length = demoRing2.values.length) ∧
    (demoRing2.AddToHead (.stored 1)).head = demoRing2.head ∧
    (demoRing2.flush 0).head = demoRing2.head) :=
  ⟨by with_unfolding_all decide, by with_unfolding_all decide,
    by with_unfolding_all decide,
    head_index_invariant demoRing2 0 (.stored 1) 0
      (by with_unfolding_all decide) (by with_unfolding_all decide)
      (by with_unfolding_all decide)⟩

/-- Claim C5 (amended, proved) — Read idempotence holds outside the overflow
case: `GetHead` is read-only (embedded as a pure function), and whenever
the internally computed diff is non-negative, running `GetDiff` twice in
a row without an intervening `FlushHead` returns the same value, and the
second call does not change the ring state further.  (In the overflow
case the first call flushes the history, and the repeated call can
differ: see the counterexample.) -/
theorem getDiff_idempotent_nonneg (r : ValueRing)
    (h : (r.getDiffInterval r.interval).isNeg = false) :
    r.GetDiff.2.GetDiff.1 = r.GetDiff.1 ∧
    r.GetDiff.2.GetDiff.2 = r.GetDiff.2 := by
  have hfst : r.GetDiff = (r.getDiffInterval r.interval,
      { r with previousDiff := r.getDiffInterval r.interval }) := by
    unfold ValueRing.GetDiff
    dsimp only
    rw [h]
    simp
  rw [hfst]
  dsimp only
  unfold ValueRing.GetDiff
  dsimp only
  rw [show ({ r with previousDiff := r.getDiffInterval r.interval } :
      ValueRing).interval = r.interval from rfl]
  rw [getDiffInterval_set_previousDiff, h]
  simp

/-- Witness for `getDiff_idempotent_nonneg` at the reachable state
`rateRing` (computed diff `50 ≥ 0`). -/
theorem getDiff_idempotent_nonneg_witness :
    (rateRing.getDiffInterval rateRing.interval).isNeg = false ∧
    (rateRing.GetDiff.2.GetDiff.1 = rateRing.GetDiff.1 ∧
      rateRing.GetDiff.2.GetDiff.2 = rateRing.GetDiff.2) :=
  ⟨by with_unfolding_all decide,
    getDiff_idempotent_nonneg rateRing (by with_unfolding_all decide)⟩

/-- Claim C10 (confirmed) — Last-good-diff clobbering: every `GetDiff` whose
internally computed diff is non-negative (including the `0` of the
empty-ring, missing-previous and zero-elapsed-time edge cases) rewrites
`previousDiff` to that diff, so `GetDiff` performs a state write on the
whole non-negative path.  Consequently, in the concrete run
`edgeDiff1..edgeDiff4`: the genuinely computed rate is `10`; after an
overflow flush the zero-interval edge-case query returns `0` and
overwrites the cached `10`; the next overflow query then falls back to
`0`, not to the last genuine rate `10`. -/
theorem getDiff_nonneg_clobbers_previousDiff :
    (∀ r : ValueRing, (r.getDiffInterval r.interval).isNeg = false →
      r.GetDiff = (r.getDiffInterval r.interval,
        { r with previousDiff := r.getDiffInterval r.interval })) ∧
    edgeDiff1.1 = .finite 10 ∧
    edgeDiff2.1 = .finite 10 ∧
    edgeDiff3.1 = .finite 0 ∧
    edgeDiff3.2.previousDiff = .finite 0 ∧
    ((edgeDiff3.2.AddValue 3000000000 1).getDiffInterval
      (edgeDiff3.2.AddValue 3000000000 1).interval).isNeg = true ∧
    edgeDiff4.1 = .finite 0 ∧
    edgeDiff4.1 ≠ edgeDiff1.1 := by
  constructor
  · intro r h
    unfold ValueRing.GetDiff
    dsimp only
    rw [h]
    simp
  · with_unfolding_all decide

/-- Witness for the universally quantified part of
`getDiff_nonneg_clobbers_previousDiff`, at the reachable state
`demoRing2` (computed diff `10 ≥ 0`). -/
theorem getDiff_nonneg_clobbers_previousDiff_witness :
    (demoRing2.getDiffInterval demoRing2.interval).isNeg = false ∧
    demoRing2.GetDiff = (demoRing2.getDiffInterval demoRing2.interval,
      { demoRing2 with
          previousDiff := demoRing2.getDiffInterval demoRing2.interval }) :=
  ⟨by with_unfolding_all decide,
    getDiff_nonneg_clobbers_previousDiff.1 demoRing2
      (by with_unfolding_all decide)⟩

/-- Claim C6 (amended, proved) — The zero-divisor guard lives on the
`GetDiff` path, not inside the value-level `difference`: for every ring
whose slots hold only scalar (or nil) values and whose cached diff is
finite, `getDiffInterval` — which checks `interval == 0` before invoking
`DiffValue` — never evaluates the scalar division with a zero divisor,
so it and `GetDiff` only return finite values (never infinity or NaN).
`DiffValue` itself, called with `interval = 0`, divides unguarded (see
the counterexample). -/
theorem getDiff_path_division_safe (r : ValueRing) (w : GoDuration)
    (hscalar : r.values.all TimedValue.scalarSlot = true)
    (hprev : r.previousDiff.isFinite = true) :
    (r.getDiffInterval w).isFinite = true ∧
    (r.GetDiff.1).isFinite = true := by
  have hval : ∀ i : Nat,
      (r.values.getD i TimedValue.empty).scalarSlot = true := by
    intro i
    rcases getD_mem_or_default r.values i TimedValue.empty with h | h
    · exact List.all_eq_true.mp hscalar _ h
    · rw [h]; rfl
  have hheadslot : r.getHead.scalarSlot = true := hval _
  have hmain : ∀ w' : GoDuration, (r.getDiffInterval w').isFinite = true := by
    intro w'
    unfold ValueRing.getDiffInterval
    dsimp only
    split
    · rfl
    next hv hh =>
      split
      · rfl
      next pv hp =>
        split
        · rfl
        next hne =>
          have hsec : durationSeconds
              (r.getHead.time - (r.get (r.getHead.time - w')).time) ≠ 0 := by
            intro hc
            rw [durationSeconds, div_eq_zero_iff] at hc
            rcases hc with hc | hc
            · exact hne (by exact_mod_cast hc)
            · norm_num at hc
          cases hv with
          | stored v =>
            cases pv <;>
              simp [LogbackValue.DiffValue, StoredValue.DiffValue, floatDiv,
                hsec, GoFloat.isFinite]
          | storedPtr v =>
            cases pv <;>
              simp [LogbackValue.DiffValue, StoredValue.DiffValue, floatDiv,
                hsec, GoFloat.isFinite]
          | custom c =>
            have hbad := hheadslot
            unfold TimedValue.scalarSlot at hbad
            rw [hh] at hbad
            simp at hbad
  refine ⟨hmain w, ?_⟩
  unfold ValueRing.GetDiff
  dsimp only
  split
  · exact hprev
  · exact hmain r.interval

/-- Witness for `getDiff_path_division_safe` at the reachable state
`demoRing2` (all slots scalar or nil, cached diff `0`). -/
theorem getDiff_path_division_safe_witness :
    demoRing2.values.all TimedValue.scalarSlot = true ∧
    demoRing2.previousDiff.isFinite = true ∧
    ((demoRing2.getDiffInterval demoRing2.interval).isFinite = true ∧
      (demoRing2.GetDiff.1).isFinite = true) :=
  ⟨by with_unfolding_all decide, by with_unfolding_all decide,
    getDiff_path_division_safe demoRing2 demoRing2.interval
      (by with_unfolding_all decide) (by with_unfolding_all decide)⟩

/-- Claim C2 (amended, proved) — With fewer than two committed samples the
diff is `0`: for every capacity `C ≥ 1` and every non-negative window, a
ring holding a single committed scalar sample answers `GetDiff` with `0`
(the backward search finds the head sample itself, so the elapsed
interval is zero).  Once a second, older sample exists, `GetDiff`
computes against the oldest contiguous sample even when no sample is old
enough to span the window — it does not return `0` (see the
counterexample). -/
theorem getDiff_zero_single_sample (C : Nat) (v : StoredValue) (t : GoTime)
    (w : GoDuration) (hC : 1 ≤ C) (hw : 0 ≤ w) :
    ((((⟨C, w⟩ : ValueRingFactory).NewValueRing).AddValue t v).GetDiff).1 =
      .finite 0 := by
  obtain ⟨m, rfl⟩ : ∃ m, C = m + 1 := ⟨C - 1, by omega⟩
  have key : ∀ a b : Int, 0 ≤ b → ¬ (a < a - b) := by
    intro a b hb
    omega
  have hnlt : ¬ (t < t - w) := key t w hw
  rcases m with _ | m
  · rw [show ((⟨1, w⟩ : ValueRingFactory).NewValueRing).AddValue t v =
      (⟨w, [⟨t, some (.stored v)⟩], 0, none, .finite 0⟩ : ValueRing) from rfl]
    simp [ValueRing.GetDiff, ValueRing.getDiffInterval, ValueRing.getHead,
      ValueRing.get, walkRing, hnlt, GoFloat.isNeg,
      intRangeDown_eq_nil, intRangeDown_cons, TimedValue.empty]
  · have hring : ((⟨m + 2, w⟩ : ValueRingFactory).NewValueRing).AddValue t v =
        (⟨w, ⟨t, some (.stored v)⟩ :: List.replicate (m + 1) TimedValue.empty,
          1, none, .finite 0⟩ : ValueRing) := by
      unfold ValueRingFactory.NewValueRing ValueRing.AddValue ValueRing.Add
        ValueRing.AddToHead ValueRing.FlushHead
      dsimp only
      rw [List.length_replicate, if_neg (by push_cast; omega),
        List.replicate_succ]
      rfl
    rw [hring]
    have hlen : ((⟨t, some (.stored v)⟩ ::
        List.replicate (m + 1) TimedValue.empty : List TimedValue).length :
          Int) - 1 = ((m : Int) + 1) := by
      simp only [List.length_cons, List.length_replicate]
      push_cast
      ring
    have hrange : intRangeDown ((m : Int) + 1) 1 =
        ((m : Int) + 1) :: intRangeDown (m : Int) 1 := by
      rw [intRangeDown_cons (by omega)]
      norm_num
    have hslot : ((⟨t, some (.stored v)⟩ ::
        List.replicate (m + 1) TimedValue.empty : List TimedValue).getD
          ((m : Int) + 1).toNat TimedValue.empty) = TimedValue.empty := by
      have htn : ((m : Int) + 1).toNat = m + 1 := by omega
      rw [htn, List.getD_cons_succ, getD_replicate]
    simp [ValueRing.GetDiff, ValueRing.getDiffInterval, ValueRing.getHead,
      ValueRing.get, walkRing, hnlt, GoFloat.isNeg, hlen, hrange, hslot,
      intRangeDown_eq_nil, intRangeDown_cons, TimedValue.empty]

/-- Witness for `getDiff_zero_single_sample` at capacity `3`, sample
`(t = 5ns, 7)`, window `1s`. -/
theorem getDiff_zero_single_sample_witness :
    1 ≤ 3 ∧ (0 : Int) ≤ 1000000000 ∧
    ((((⟨3, 1000000000⟩ : ValueRingFactory).NewValueRing).AddValue 5
      7).GetDiff).1 = .finite 0 :=
  ⟨by decide, by decide,
    getDiff_zero_single_sample 3 7 5 1000000000 (by decide) (by decide)⟩

end Collector
